import Mathlib

/-!
# PsychMem — verification of the selective-memory engine

Shallow embedding, in Lean 4, of the core algorithms of the PsychMem
selective-memory engine (TypeScript), together with theorems settling the
frozen claims C1–C10 about them.

Embedding conventions:
* JavaScript numbers are modelled as `ℝ` in the two places where the source
  applies transcendental functions (`Math.log` in `calculateStrength`,
  `Math.exp` in `applyDecay`), and as `ℚ` everywhere else (the remaining
  arithmetic is field arithmetic and comparisons, which `ℚ` models exactly).
* JavaScript strings are modelled as `Str := List Char`; `toLowerCase`,
  `split(/\s+/)`, `includes`, `endsWith`, `trim`, `slice` are implemented
  over `Str` by structural recursion so that concrete runs reduce.
* Database rows are modelled as Lean structures, a table as a `List` of rows,
  and the SQL queries as filter / sort / take pipelines; `ORDER BY x DESC`
  is modelled with `List.mergeSort` (stable, like the SQLite sorter for the
  purposes of the properties proved here).
* Each definition is translated from the named TypeScript source location;
  configuration values are fixed to the defaults in `DEFAULT_CONFIG`
  (src/types/index.ts), which is what every claim is about.
-/

/-! ## Basic enumerated types (src/types/index.ts) -/

/-- Memory store type (`'stm' | 'ltm'`). -/
inductive MemoryStore where
  | stm
  | ltm
  deriving DecidableEq, Repr

/-- Memory lifecycle status (`'active' | 'decayed' | 'pinned' | 'forgotten'`). -/
inductive MemoryStatus where
  | active
  | decayed
  | pinned
  | forgotten
  deriving DecidableEq, Repr

/-- The eight memory classifications. -/
inductive MemoryClassification where
  | episodic
  | semantic
  | procedural
  | bugfix
  | learning
  | preference
  | decision
  | constraint
  deriving DecidableEq, Repr

/-- `USER_LEVEL_CLASSIFICATIONS` (src/types/index.ts). -/
def USER_LEVEL_CLASSIFICATIONS : List MemoryClassification :=
  [.constraint, .preference, .learning, .procedural]

/-- `isUserLevelClassification` (src/types/index.ts). -/
def isUserLevelClassification (classification : MemoryClassification) : Bool :=
  classification ∈ USER_LEVEL_CLASSIFICATIONS

/-! ## C1: `calculateStrength`
(src/memory/selective-memory.ts lines 174–193, identical copy in
src/storage/database.ts lines 812–839; weights from `DEFAULT_CONFIG.scoringWeights`). -/

/-- Scoring weights record (`ScoringWeights`, src/types/index.ts). -/
structure ScoringWeights where
  recency : ℝ
  frequency : ℝ
  importance : ℝ
  utility : ℝ
  novelty : ℝ
  confidence : ℝ
  interference : ℝ

/-- `DEFAULT_CONFIG.scoringWeights`:
recency 0.2, frequency 0.15, importance 0.25, utility 0.2, novelty 0.1,
confidence 0.1, interference −0.1. -/
def scoringWeights : ScoringWeights :=
  ⟨0.2, 0.15, 0.25, 0.2, 0.1, 0.1, -0.1⟩

/-- `MemoryFeatureVector` (src/types/index.ts). -/
structure MemoryFeatureVector where
  recency : ℝ
  frequency : ℝ
  importance : ℝ
  utility : ℝ
  novelty : ℝ
  confidence : ℝ
  interference : ℝ

/-- `Math.min(1, Math.log(features.frequency + 1) / Math.log(10))`. -/
noncomputable def normalizedFrequency (frequency : ℝ) : ℝ :=
  min 1 (Real.log (frequency + 1) / Real.log 10)

/-- `1 - Math.min(1, features.recency / 168)` (168 hours = 1 week). -/
noncomputable def recencyFactor (recency : ℝ) : ℝ :=
  1 - min 1 (recency / 168)

/-- The local `strength` accumulator of `calculateStrength` (the weighted sum
before clamping). -/
noncomputable def strengthSum (features : MemoryFeatureVector) : ℝ :=
  scoringWeights.recency * recencyFactor features.recency +
  scoringWeights.frequency * normalizedFrequency features.frequency +
  scoringWeights.importance * features.importance +
  scoringWeights.utility * features.utility +
  scoringWeights.novelty * features.novelty +
  scoringWeights.confidence * features.confidence +
  scoringWeights.interference * features.interference

/-- `calculateStrength` — weighted sum of the feature vector, clamped to
`[0,1]` by `Math.max(0, Math.min(1, strength))`. -/
noncomputable def calculateStrength (features : MemoryFeatureVector) : ℝ :=
  max 0 (min 1 (strengthSum features))

/-- The all-zero feature vector. -/
def zeroFeatures : MemoryFeatureVector := ⟨0, 0, 0, 0, 0, 0, 0⟩

theorem strengthSum_zero : strengthSum zeroFeatures = 0.2 := by
  simp only [strengthSum, zeroFeatures, scoringWeights, recencyFactor, normalizedFrequency]
  norm_num [Real.log_one]

theorem calculateStrength_zero : calculateStrength zeroFeatures = 0.2 := by
  rw [calculateStrength, strengthSum_zero]
  norm_num

/-- C1, counterexample.  The claim says the all-zero feature vector yields
strength 0 and that increasing `interference` alone strictly decreases the
result.  In the code, `recency = 0` means "just created", so `recencyFactor`
is `1` and the all-zero vector scores `0.2 × 1 = 0.2 ≠ 0`; and once the
weighted sum is clamped at `0`, raising `interference` (here from `0.5`
to `1` with `recency = 168`) leaves the output unchanged at `0`. -/
theorem calculateStrength_claim_counterexample :
    calculateStrength zeroFeatures = 0.2 ∧ (0.2 : ℝ) ≠ 0 ∧
    calculateStrength ⟨168, 0, 0, 0, 0, 0, 0.5⟩ = 0 ∧
    calculateStrength ⟨168, 0, 0, 0, 0, 0, 1⟩ = 0 := by
  refine ⟨calculateStrength_zero, by norm_num, ?_, ?_⟩ <;>
  · simp only [calculateStrength, strengthSum, scoringWeights, recencyFactor,
      normalizedFrequency]
    norm_num [Real.log_one]

theorem strengthSum_interference (f : MemoryFeatureVector) (i : ℝ) :
    strengthSum { f with interference := i } =
      strengthSum { f with interference := 0 } + scoringWeights.interference * i := by
  simp only [strengthSum]
  ring

theorem strengthSum_le_one (f : MemoryFeatureVector)
    (hr : 0 ≤ f.recency)
    (him : f.importance ≤ 1) (hu : f.utility ≤ 1) (hn : f.novelty ≤ 1)
    (hc : f.confidence ≤ 1) (hi : 0 ≤ f.interference) :
    strengthSum f ≤ 1 := by
  have hrf : recencyFactor f.recency ≤ 1 := by
    have h0 : (0 : ℝ) ≤ min 1 (f.recency / 168) :=
      le_min (by norm_num) (by positivity)
    simp only [recencyFactor]
    linarith
  have hnf : normalizedFrequency f.frequency ≤ 1 := min_le_left _ _
  simp only [strengthSum, scoringWeights]
  nlinarith

/-- C1, amended.  `calculateStrength` always lands in `[0,1]`; the all-zero
feature vector yields `0.2` (the full recency weight, since `recency = 0`
means maximally recent); and with the other features held constant and within
their documented ranges, increasing `interference` strictly decreases the
result provided the higher-interference result is not clamped at `0`. -/
theorem calculateStrength_spec :
    (∀ f, 0 ≤ calculateStrength f ∧ calculateStrength f ≤ 1) ∧
    calculateStrength zeroFeatures = 0.2 ∧
    (∀ (f : MemoryFeatureVector) (i₂ : ℝ),
      0 ≤ f.recency →
      f.importance ≤ 1 → f.utility ≤ 1 → f.novelty ≤ 1 → f.confidence ≤ 1 →
      0 ≤ f.interference → f.interference < i₂ →
      0 < calculateStrength { f with interference := i₂ } →
      calculateStrength { f with interference := i₂ } < calculateStrength f) := by
  refine ⟨fun f => ⟨le_max_left _ _, max_le (by norm_num) (min_le_left _ _)⟩,
    calculateStrength_zero, ?_⟩
  intro f i₂ hr him hu hn hc hi0 hlt hpos
  have hfeq : ({ f with interference := f.interference } : MemoryFeatureVector) = f := rfl
  have hs₁ := strengthSum_interference f f.interference
  have hs₂ := strengthSum_interference f i₂
  rw [hfeq] at hs₁
  set A := strengthSum { f with interference := 0 } with hA
  have hA1 : A ≤ 1 := by
    refine strengthSum_le_one _ hr him hu hn hc (le_refl 0)
  have hw : scoringWeights.interference = -0.1 := rfl
  rw [hw] at hs₁ hs₂
  have hlt' : strengthSum { f with interference := i₂ } < strengthSum f := by
    rw [hs₁, hs₂]; linarith
  have hs₁le : strengthSum f ≤ 1 := by rw [hs₁]; linarith
  have hs₂le : strengthSum { f with interference := i₂ } ≤ 1 := by rw [hs₂]; linarith
  have hpos' : 0 < strengthSum { f with interference := i₂ } := by
    rcases lt_max_iff.mp hpos with h | h
    · exact absurd h (lt_irrefl 0)
    · rcases lt_min_iff.mp h with ⟨_, h2⟩
      exact h2
  calc calculateStrength { f with interference := i₂ }
      = strengthSum { f with interference := i₂ } := by
        rw [calculateStrength, min_eq_right hs₂le, max_eq_right (le_of_lt hpos')]
    _ < strengthSum f := hlt'
    _ ≤ calculateStrength f := by
        rw [calculateStrength, min_eq_right hs₁le]
        exact le_max_right _ _

/-- Concrete instance of `calculateStrength_spec`: raising interference from
`0` to `1` at the otherwise-zero feature vector drops the strength from
`0.2` to `0.1`. -/
theorem calculateStrength_spec_witness :
    calculateStrength { zeroFeatures with interference := (1 : ℝ) } <
      calculateStrength zeroFeatures := by
  have h := calculateStrength_spec.2.2 zeroFeatures 1
    (by norm_num [zeroFeatures]) (by norm_num [zeroFeatures])
    (by norm_num [zeroFeatures]) (by norm_num [zeroFeatures])
    (by norm_num [zeroFeatures]) (by norm_num [zeroFeatures])
    (by norm_num [zeroFeatures])
  have hval : calculateStrength { zeroFeatures with interference := (1 : ℝ) } = 0.1 := by
    simp only [calculateStrength, strengthSum, zeroFeatures, scoringWeights,
      recencyFactor, normalizedFrequency]
    norm_num [Real.log_one]
  have hz : ({ zeroFeatures with interference := (1 : ℝ) } : MemoryFeatureVector).interference
      = (1 : ℝ) := rfl
  exact h (by rw [hval]; norm_num)

/-! ## C2: `applyDecay` (src/storage/database.ts lines 754–780)

The decay pass selects the rows with `status = 'active'` (id, strength,
decay_rate, updated_at, status) and processes each row independently; we model
the selected row shape and the per-row update.  Timestamps are epoch
milliseconds, as in `Date.getTime()`. -/

/-- The row shape read by `applyDecay`. -/
structure DecayRow where
  id : Nat
  strength : ℝ
  decay_rate : ℝ
  updated_at : ℝ
  status : MemoryStatus

/-- `dtHours = (now.getTime() - updatedAt.getTime()) / (1000 * 60 * 60)`. -/
noncomputable def dtHours (now : ℝ) (m : DecayRow) : ℝ :=
  (now - m.updated_at) / (1000 * 60 * 60)

/-- `newStrength = mem.strength * Math.exp(-mem.decay_rate * dtHours)`. -/
noncomputable def newStrength (now : ℝ) (m : DecayRow) : ℝ :=
  m.strength * Real.exp (-m.decay_rate * dtHours now m)

/-- One iteration of the `applyDecay` loop on one row.  Rows whose status is
not `'active'` are never selected by the `WHERE status = 'active'` query, so
they are returned unchanged.  For an active row: if the new strength falls
below the `decayThreshold = 0.1` the row's status is set to `'decayed'`
(`updateMemoryStatus`, which does not write the strength); otherwise, if the
strength changed, the new strength is persisted (`updateMemoryStrength`).
Both writes also refresh `updated_at`. -/
noncomputable def decayStep (now : ℝ) (m : DecayRow) : DecayRow :=
  if m.status = .active then
    if newStrength now m < 0.1 then
      { m with status := .decayed, updated_at := now }
    else if newStrength now m ≠ m.strength then
      { m with strength := newStrength now m, updated_at := now }
    else m
  else m

/-- `applyDecay` over the whole table. -/
noncomputable def applyDecay (now : ℝ) (rows : List DecayRow) : List DecayRow :=
  rows.map (decayStep now)

/-- C2.  A decay pass multiplies each active memory's strength by
`exp(−decayRate × Δt_hours)`: when the result is below `0.1` the status
becomes `'decayed'` (and the stored strength is not rewritten), otherwise the
new strength is persisted and the memory stays `'active'`; pinned, forgotten
and decayed memories are skipped, so their strength and status never change
regardless of elapsed time. -/
theorem applyDecay_spec :
    (∀ now rows, applyDecay now rows = rows.map (decayStep now)) ∧
    (∀ now m, newStrength now m = m.strength * Real.exp (-m.decay_rate * dtHours now m)) ∧
    (∀ now m, m.status = .active →
      (newStrength now m < 0.1 →
        (decayStep now m).status = .decayed ∧ (decayStep now m).strength = m.strength) ∧
      (0.1 ≤ newStrength now m →
        (decayStep now m).strength = newStrength now m ∧
        (decayStep now m).status = .active)) ∧
    (∀ now m, m.status ≠ .active → decayStep now m = m) := by
  refine ⟨fun _ _ => rfl, fun _ _ => rfl, ?_, ?_⟩
  · intro now m hact
    have hd : decayStep now m =
        if newStrength now m < 0.1 then
          { m with status := .decayed, updated_at := now }
        else if newStrength now m ≠ m.strength then
          { m with strength := newStrength now m, updated_at := now }
        else m := by
      simp [decayStep, hact]
    constructor
    · intro hlt
      rw [hd, if_pos hlt]
      exact ⟨rfl, rfl⟩
    · intro hge
      have hnlt : ¬ newStrength now m < 0.1 := not_lt.mpr hge
      rw [hd, if_neg hnlt]
      by_cases hne : newStrength now m = m.strength
      · rw [if_neg (not_not_intro hne)]
        exact ⟨hne.symm, hact⟩
      · rw [if_pos hne]
        exact ⟨rfl, hact⟩
  · intro now m hnact
    simp [decayStep, hnact]

/-- Concrete instances of `applyDecay_spec`: with `Δt = 0`, an active memory
at strength `0.5` keeps strength `0.5 × exp 0 = 0.5` and stays active; an
active memory at strength `0.05` transitions to `'decayed'`; a pinned memory
is untouched. -/
theorem applyDecay_spec_witness :
    (decayStep 0 ⟨1, 0.5, 0.05, 0, .active⟩).strength =
        0.5 * Real.exp (-(0.05 : ℝ) * dtHours 0 ⟨1, 0.5, 0.05, 0, .active⟩) ∧
    (decayStep 0 ⟨2, 0.05, 0.05, 0, .active⟩).status = .decayed ∧
    decayStep 0 ⟨3, 0.5, 0.05, 0, .pinned⟩ = ⟨3, 0.5, 0.05, 0, .pinned⟩ := by
  have h1 : (decayStep 0 ⟨1, 0.5, 0.05, 0, .active⟩).strength =
      newStrength 0 ⟨1, 0.5, 0.05, 0, .active⟩ := by
    refine ((applyDecay_spec.2.2.1 0 ⟨1, 0.5, 0.05, 0, .active⟩ rfl).2 ?_).1
    simp only [newStrength, dtHours]
    norm_num [Real.exp_zero]
  refine ⟨?_,
    ((applyDecay_spec.2.2.1 0 ⟨2, 0.05, 0.05, 0, .active⟩ rfl).1 ?_).1,
    applyDecay_spec.2.2.2 0 ⟨3, 0.5, 0.05, 0, .pinned⟩ (by simp)⟩
  · rw [h1]
    simp only [newStrength]
  · simp only [newStrength, dtHours]
    norm_num [Real.exp_zero]

/-! ## Shared string model

JavaScript strings are modelled as `Str := List Char`, with structurally
recursive versions of the string operations the source uses
(`toLowerCase`, `split(/\s+/)`, `split('\n')`, `includes`, `endsWith`,
`trim`, `slice(0, n)`).  Splitting on `/\s+/` drops empty tokens
(the JavaScript quirk that a leading separator yields one leading empty
string does not matter for any input considered here, since word sets are
compared by membership). -/

/-- JavaScript string (sequence of characters). -/
abbrev Str := List Char

/-- `text.toLowerCase()`. -/
def lowerStr (s : Str) : Str := s.map Char.toLower

/-- `text.split(/\s+/)`, with empty tokens dropped. -/
def splitWs (s : Str) : List Str :=
  (s.splitOnP Char.isWhitespace).filter (· ≠ [])

/-- `text.startsWith(p)` on character lists. -/
def strStartsWith : Str → Str → Bool
  | _, [] => true
  | [], _ :: _ => false
  | a :: as, b :: bs => a = b && strStartsWith as bs

/-- `text.includes(p)` (substring containment). -/
def strContains : Str → Str → Bool
  | [], sub => sub.isEmpty
  | c :: tl, sub => strStartsWith (c :: tl) sub || strContains tl sub

/-- `text.endsWith(p)`. -/
def strEndsWith (s post : Str) : Bool :=
  strStartsWith s.reverse post.reverse

/-- `text.trim()`. -/
def strTrim (s : Str) : Str :=
  ((s.dropWhile Char.isWhitespace).reverse.dropWhile Char.isWhitespace).reverse

/-! ## Shared memory-unit model (ℚ slice)

The row shape shared by consolidation (C3), the scope queries (C10), the
conflict filter (C8) and retrieval ranking (C9).  Only the fields those
operations read are included. -/

/-- `MemoryUnit` (src/types/index.ts), restricted to the fields used by the
operations verified here.  `createdAt` is epoch milliseconds. -/
structure MemoryUnit where
  id : Nat
  store : MemoryStore
  classification : MemoryClassification
  summary : Str
  tags : List Str
  projectScope : Option Str
  createdAt : ℚ
  strength : ℚ
  frequency : ℚ
  importance : ℚ
  decayRate : ℚ
  status : MemoryStatus
  deriving DecidableEq, Repr

/-! ## C3: `runConsolidation` (src/storage/database.ts lines 785–803)

Thresholds and rates from `DEFAULT_CONFIG` (src/types/index.ts). -/

/-- `DEFAULT_CONFIG.stmToLtmStrengthThreshold = 0.7`. -/
def stmToLtmStrengthThreshold : ℚ := 0.7

/-- `DEFAULT_CONFIG.stmToLtmFrequencyThreshold = 3`. -/
def stmToLtmFrequencyThreshold : ℚ := 3

/-- `DEFAULT_CONFIG.autoPromoteToLtm = ['bugfix', 'learning', 'decision']`. -/
def autoPromoteToLtm : List MemoryClassification := [.bugfix, .learning, .decision]

/-- `DEFAULT_CONFIG.ltmDecayRate = 0.01`. -/
def ltmDecayRate : ℚ := 0.01

/-- `DEFAULT_CONFIG.stmDecayRate = 0.05`. -/
def stmDecayRate : ℚ := 0.05

/-- The `shouldPromote` disjunction inside `MemoryDatabase.runConsolidation`:
`mem.strength >= stmToLtmStrengthThreshold || mem.frequency >=
stmToLtmFrequencyThreshold || autoPromoteToLtm.includes(mem.classification)`. -/
def shouldPromote (mem : MemoryUnit) : Bool :=
  decide (stmToLtmStrengthThreshold ≤ mem.strength) ||
  decide (stmToLtmFrequencyThreshold ≤ mem.frequency) ||
  decide (mem.classification ∈ autoPromoteToLtm)

/-- `MemoryDatabase.promoteToLtm` — `SET store = 'ltm', decay_rate = ltmDecayRate`. -/
def promoteToLtm (mem : MemoryUnit) : MemoryUnit :=
  { mem with store := .ltm, decayRate := ltmDecayRate }

/-- Effect of one consolidation pass on one row.  The pass loops over
`getMemoriesByStore('stm')`, i.e. over rows with `store = 'stm'` **and**
`status = 'active'` (the query's default status filter); every other row is
untouched.  The iteration order (`ORDER BY strength DESC`) is irrelevant to
the final state because each row is updated independently. -/
def consolidateRow (mem : MemoryUnit) : MemoryUnit :=
  if mem.store = .stm ∧ mem.status = .active ∧ shouldPromote mem = true then
    promoteToLtm mem
  else mem

/-- `runConsolidation` over the whole table. -/
def runConsolidation (rows : List MemoryUnit) : List MemoryUnit :=
  rows.map consolidateRow

/-- A decayed STM memory of strength 1 (above every promotion threshold). -/
def decayedStmMem : MemoryUnit :=
  ⟨7, .stm, .preference, [], [], none, 0, 1, 1, 0.5, stmDecayRate, .decayed⟩

/-- C3, counterexample.  The claim promotes *every* stm memory meeting the
criteria, but the pass only reads rows with `status = 'active'`: a decayed
stm memory of strength 1 satisfies `strength ≥ 0.7` and is left
unpromoted. -/
theorem runConsolidation_claim_counterexample :
    decayedStmMem.store = .stm ∧
    stmToLtmStrengthThreshold ≤ decayedStmMem.strength ∧
    runConsolidation [decayedStmMem] = [decayedStmMem] ∧
    decayedStmMem.store ≠ .ltm := by
  refine ⟨rfl, by norm_num [decayedStmMem, stmToLtmStrengthThreshold], ?_, by decide⟩
  simp [runConsolidation, consolidateRow, decayedStmMem]

/-- C3, amended.  A consolidation pass promotes an **active** stm memory to
ltm (switching its decayRate to the LTM rate) if and only if its strength is
≥ 0.7, or its frequency is ≥ 3, or its classification is bugfix, learning or
decision; ltm memories are untouched and the pass is idempotent. -/
theorem runConsolidation_spec :
    (∀ m : MemoryUnit, m.store = .stm → m.status = .active →
      (((consolidateRow m).store = .ltm) ↔
        ((0.7 : ℚ) ≤ m.strength ∨ (3 : ℚ) ≤ m.frequency ∨
          m.classification ∈ ([.bugfix, .learning, .decision] : List MemoryClassification))) ∧
      (shouldPromote m = true → consolidateRow m = promoteToLtm m)) ∧
    (∀ m : MemoryUnit, m.store = .ltm → consolidateRow m = m) ∧
    (∀ m : MemoryUnit, consolidateRow (consolidateRow m) = consolidateRow m) ∧
    (∀ rows, runConsolidation (runConsolidation rows) = runConsolidation rows) := by
  have hcrit : ∀ m : MemoryUnit, shouldPromote m = true ↔
      ((0.7 : ℚ) ≤ m.strength ∨ (3 : ℚ) ≤ m.frequency ∨
        m.classification ∈ ([.bugfix, .learning, .decision] : List MemoryClassification)) := by
    intro m
    simp only [shouldPromote, stmToLtmStrengthThreshold, stmToLtmFrequencyThreshold,
      autoPromoteToLtm, Bool.or_eq_true, decide_eq_true_eq]
    tauto
  have hidem : ∀ m : MemoryUnit, consolidateRow (consolidateRow m) = consolidateRow m := by
    intro m
    by_cases h : m.store = .stm ∧ m.status = .active ∧ shouldPromote m = true
    · have h1 : consolidateRow m = promoteToLtm m := by
        simp only [consolidateRow]
        rw [if_pos h]
      rw [h1]
      simp [consolidateRow, promoteToLtm]
    · have h1 : consolidateRow m = m := by
        simp only [consolidateRow]
        rw [if_neg h]
      rw [h1, h1]
  refine ⟨?_, ?_, hidem, ?_⟩
  · intro m hstm hact
    constructor
    · by_cases hp : shouldPromote m = true
      · have h1 : consolidateRow m = promoteToLtm m := by
          simp only [consolidateRow]
          rw [if_pos ⟨hstm, hact, hp⟩]
        rw [h1]
        exact iff_of_true rfl ((hcrit m).mp hp)
      · have h1 : consolidateRow m = m := by
          simp only [consolidateRow]
          rw [if_neg (by tauto)]
        rw [h1, hstm]
        exact iff_of_false (by simp) fun h => hp ((hcrit m).mpr h)
    · intro hp
      simp only [consolidateRow]
      rw [if_pos ⟨hstm, hact, hp⟩]
  · intro m hltm
    have : ¬ (m.store = .stm ∧ m.status = .active ∧ shouldPromote m = true) := by
      rw [hltm]; rintro ⟨h, -⟩; exact absurd h (by simp)
    simp only [consolidateRow]
    rw [if_neg this]
  · intro rows
    simp [runConsolidation, Function.comp, hidem]

/-- An active STM memory of strength 1. -/
def strongStmMem : MemoryUnit :=
  ⟨8, .stm, .preference, [], [], none, 0, 1, 1, 0.5, stmDecayRate, .active⟩

/-- Concrete instance of `runConsolidation_spec`: an active stm memory of
strength 1 is promoted, with its decayRate switched to the LTM rate, and a
second pass leaves it unchanged. -/
theorem runConsolidation_spec_witness :
    consolidateRow strongStmMem = promoteToLtm strongStmMem ∧
    (consolidateRow strongStmMem).store = .ltm ∧
    (consolidateRow strongStmMem).decayRate = ltmDecayRate ∧
    consolidateRow (consolidateRow strongStmMem) = consolidateRow strongStmMem := by
  have hp : shouldPromote strongStmMem = true := by
    have : (0.7 : ℚ) ≤ strongStmMem.strength := by norm_num [strongStmMem]
    simp [shouldPromote, stmToLtmStrengthThreshold, this]
  have h1 := (runConsolidation_spec.1 strongStmMem rfl rfl).2 hp
  exact ⟨h1, by rw [h1]; rfl, by rw [h1]; rfl,
    runConsolidation_spec.2.2.1 strongStmMem⟩

/-! ## C4: duplicate suppression and novelty in `processCandidates`
(src/memory/selective-memory.ts lines 50–58 and 135–149)

`processCandidates` loads the pool of existing memories once
(`getTopMemories(200)`) and never extends it during the loop, so every
candidate is tested against the same fixed pool. -/

/-- `SelectiveMemory.calculateTextSimilarity` — Jaccard index on the
lower-cased whitespace-split word sets (no word-length filter in this
version). -/
def calculateTextSimilarity (a b : Str) : ℚ :=
  let wordsA := (splitWs (lowerStr a)).dedup
  let wordsB := (splitWs (lowerStr b)).dedup
  let inter := wordsA.filter (fun x => decide (x ∈ wordsB))
  let uni := (wordsA ++ wordsB).dedup
  if uni.length = 0 then 0 else (inter.length : ℚ) / (uni.length : ℚ)

/-- The running `maxSimilarity` accumulator of `calculateNovelty`. -/
def maxSimilarity (summary : Str) (existingMemories : List MemoryUnit) : ℚ :=
  existingMemories.foldl
    (fun acc mem => max acc (calculateTextSimilarity summary mem.summary)) 0

/-- `SelectiveMemory.calculateNovelty` — `1.0` against an empty pool,
otherwise `1 - maxSimilarity`. -/
def calculateNovelty (summary : Str) (existingMemories : List MemoryUnit) : ℚ :=
  if existingMemories.isEmpty then 1
  else 1 - maxSimilarity summary existingMemories

/-- The `isDuplicate` test of `processCandidates`:
`existingMemories.some(mem => calculateTextSimilarity(candidate.summary,
mem.summary) >= 0.7)`. -/
def isDuplicateOf (existingMemories : List MemoryUnit) (summary : Str) : Bool :=
  existingMemories.any
    (fun mem => decide ((0.7 : ℚ) ≤ calculateTextSimilarity summary mem.summary))

/-- The candidates that survive the `if (isDuplicate) continue` skip of the
`processCandidates` loop (identified by their summaries, which is what the
test reads). -/
def keptCandidates (existingMemories : List MemoryUnit) (candidates : List Str) :
    List Str :=
  candidates.filter (fun c => ! isDuplicateOf existingMemories c)

theorem init_le_foldlMax (g : MemoryUnit → ℚ) :
    ∀ (l : List MemoryUnit) (init : ℚ),
      init ≤ l.foldl (fun acc mem => max acc (g mem)) init := by
  intro l
  induction l with
  | nil => intro init; exact le_refl _
  | cons h t ih =>
    intro init
    calc init ≤ max init (g h) := le_max_left _ _
      _ ≤ t.foldl (fun acc mem => max acc (g mem)) (max init (g h)) := ih _

theorem le_foldlMax (g : MemoryUnit → ℚ) :
    ∀ (l : List MemoryUnit) (init : ℚ) (x : MemoryUnit), x ∈ l →
      g x ≤ l.foldl (fun acc mem => max acc (g mem)) init := by
  intro l
  induction l with
  | nil => intro init x hx; exact absurd hx (List.not_mem_nil x)
  | cons h t ih =>
    intro init x hx
    rcases List.mem_cons.mp hx with rfl | hx'
    · calc g x ≤ max init (g x) := le_max_right _ _
        _ ≤ t.foldl (fun acc mem => max acc (g mem)) (max init (g x)) :=
          init_le_foldlMax g t _
    · exact ih _ x hx'

/-- C4.  In `processCandidates`, a candidate is skipped exactly when some
memory of the cached pool has Jaccard similarity ≥ 0.7 to it; novelty is
`1` against an empty pool and `1 − maxSimilarity` otherwise, hence is
bounded by `1 − s` for the similarity `s` to any pool member and drops
strictly below `1` once a near-duplicate (similarity ≥ 0.7) exists in the
pool; and the surviving-candidate set is permutation-invariant in the
processing order, given the same pool. -/
theorem processCandidates_dedup_spec :
    (∀ (pool : List MemoryUnit) (c : Str),
      isDuplicateOf pool c = true ↔
        ∃ mem ∈ pool, (0.7 : ℚ) ≤ calculateTextSimilarity c mem.summary) ∧
    (∀ c : Str, calculateNovelty c [] = 1) ∧
    (∀ (pool : List MemoryUnit) (c : Str), pool ≠ [] →
      calculateNovelty c pool = 1 - maxSimilarity c pool) ∧
    (∀ (pool : List MemoryUnit) (c : Str) (mem : MemoryUnit), mem ∈ pool →
      (0.7 : ℚ) ≤ calculateTextSimilarity c mem.summary →
      calculateNovelty c pool < 1) ∧
    (∀ (pool : List MemoryUnit) (l₁ l₂ : List Str), l₁.Perm l₂ →
      (keptCandidates pool l₁).Perm (keptCandidates pool l₂)) := by
  refine ⟨?_, fun c => rfl, ?_, ?_, ?_⟩
  · intro pool c
    simp [isDuplicateOf]
  · intro pool c hne
    simp [calculateNovelty, hne]
  · intro pool c mem hmem hsim
    have hmax : (0.7 : ℚ) ≤ maxSimilarity c pool :=
      le_trans hsim (le_foldlMax _ pool 0 mem hmem)
    have hne : pool ≠ [] := by rintro rfl; exact absurd hmem (List.not_mem_nil mem)
    have h1 : calculateNovelty c pool = 1 - maxSimilarity c pool := by
      simp [calculateNovelty, hne]
    rw [h1]
    linarith
  · intro pool l₁ l₂ hperm
    exact hperm.filter _

/-- A pool memory whose summary is "always use tabs". -/
def tabPoolMem : MemoryUnit :=
  ⟨10, .stm, .preference, "always use tabs".toList, [], none, 0, 0.8, 1, 0.5,
    stmDecayRate, .active⟩

theorem calculateTextSimilarity_self_tabs :
    calculateTextSimilarity ("always use tabs".toList) tabPoolMem.summary = 1 := by
  have h1 : (((splitWs (lowerStr ("always use tabs".toList))).dedup).filter
      (fun x => decide (x ∈ (splitWs (lowerStr ("always use tabs".toList))).dedup))).length
      = 3 := by decide
  have h2 : (((splitWs (lowerStr ("always use tabs".toList))).dedup ++
      (splitWs (lowerStr ("always use tabs".toList))).dedup).dedup).length = 3 := by decide
  show calculateTextSimilarity ("always use tabs".toList) ("always use tabs".toList) = 1
  simp only [calculateTextSimilarity]
  rw [h1, h2]
  norm_num

/-- Concrete instance of `processCandidates_dedup_spec`: against a pool
containing "always use tabs", the identical candidate has novelty < 1, and
processing order does not change the survivors. -/
theorem processCandidates_dedup_spec_witness :
    calculateNovelty ("always use tabs".toList) [tabPoolMem] < 1 ∧
    (keptCandidates [tabPoolMem] ["always use tabs".toList]).Perm
      (keptCandidates [tabPoolMem] ["always use tabs".toList]) := by
  constructor
  · refine processCandidates_dedup_spec.2.2.2.1 [tabPoolMem]
      ("always use tabs".toList) tabPoolMem (by simp) ?_
    rw [calculateTextSimilarity_self_tabs]
    norm_num
  · exact processCandidates_dedup_spec.2.2.2.2 [tabPoolMem] _ _ (List.Perm.refl _)

/-! ## C5: `projectScope` assignment in `processCandidates`
(src/memory/selective-memory.ts lines 75–97, `isUserLevelClassification`
from src/types/index.ts) -/

/-- The project scope stored on a memory created by `processCandidates`:
`isUserLevelClassification(classification) ? undefined :
options?.projectScope`, followed by the truthiness spread
`...(memoryProjectScope ? { projectScope: memoryProjectScope } : {})` —
an empty string is falsy in JavaScript, so it is also dropped. -/
def createdProjectScope (classification : MemoryClassification)
    (optionsProjectScope : Option Str) : Option Str :=
  if isUserLevelClassification classification then none
  else
    match optionsProjectScope with
    | none => none
    | some s => if s = [] then none else some s

/-- C5, counterexample.  `decision` is a project-level classification, yet a
memory created from a `decision` candidate carries no `projectScope` when the
caller passes no `projectScope` option. -/
theorem projectScope_claim_counterexample :
    isUserLevelClassification .decision = false ∧
    createdProjectScope .decision none = none := by decide

/-- C5, amended.  Memories with a user-level classification (constraint,
preference, learning, procedural) never carry a `projectScope`; a memory with
a project-level classification (decision, bugfix, episodic, semantic) carries
one exactly when the caller supplied a non-empty `projectScope` option. -/
theorem projectScope_spec :
    (∀ (c : MemoryClassification) (opt : Option Str),
      isUserLevelClassification c = true → createdProjectScope c opt = none) ∧
    (∀ (c : MemoryClassification) (opt : Option Str),
      (createdProjectScope c opt).isSome = true ↔
        (isUserLevelClassification c = false ∧ ∃ s, opt = some s ∧ s ≠ [])) := by
  constructor
  · intro c opt huser
    simp [createdProjectScope, huser]
  · intro c opt
    by_cases huser : isUserLevelClassification c = true
    · simp [createdProjectScope, huser]
    · have huser' : isUserLevelClassification c = false := by
        revert huser; cases isUserLevelClassification c <;> simp
      cases opt with
      | none => simp [createdProjectScope, huser']
      | some s =>
        by_cases hs : s = []
        · simp [createdProjectScope, huser', hs]
        · simp [createdProjectScope, huser', hs]

/-- Concrete instance of `projectScope_spec`: a `preference` memory created
with a supplied project scope still carries none. -/
theorem projectScope_spec_witness :
    createdProjectScope .preference (some ("proj".toList)) = none :=
  projectScope_spec.1 .preference (some ("proj".toList)) (by decide)

/-! ## C6/C7: signal threshold and content-quality gate in `ContextSweep`
(src/memory/context-sweep.ts: `isContentQualityAcceptable` and the per-chunk
candidate decision of `extractFromConversationText` /
`extractFromUserPrompt`; weights from src/memory/structural-analyzer.ts and
src/memory/patterns.ts; threshold from `DEFAULT_SWEEP_CONFIG`,
src/types/index.ts). -/

/-- `ImportanceSignalType` (src/types/index.ts). -/
inductive ImportanceSignalType where
  | explicit_remember
  | emphasis_cue
  | correction
  | repeated_request
  | emotional_language
  | tool_failure
  | bug_fix
  | decision
  | constraint
  | preference
  | learning
  | typography_emphasis
  | correction_pattern
  | repetition_pattern
  | elaboration
  | structural_enumeration
  | meta_reference
  | quoted_text
  | code_block
  deriving DecidableEq, Repr

/-- `ImportanceSignal` (src/types/index.ts). -/
structure ImportanceSignal where
  type : ImportanceSignalType
  source : Str
  weight : ℚ
  deriving DecidableEq, Repr

/-- `DEFAULT_SWEEP_CONFIG.signalThreshold = 0.5`. -/
def signalThreshold : ℚ := 0.5

/-- Code-block typography signal, weight 0.25
(structural-analyzer.ts `analyzeTypography`). -/
def codeBlockSignal : ImportanceSignal := ⟨.code_block, "code".toList, 0.25⟩

/-- File-path meta signal, weight 0.25
(structural-analyzer.ts `analyzeMetaSignals`). -/
def filePathSignal : ImportanceSignal := ⟨.meta_reference, "file_path".toList, 0.25⟩

/-- Bare-URL meta signal, weight 0.2
(structural-analyzer.ts `analyzeMetaSignals`). -/
def urlSignal : ImportanceSignal := ⟨.meta_reference, "url".toList, 0.2⟩

/-- Colon-style definition discourse signal, weight 0.3
(structural-analyzer.ts `analyzeDiscourseMarkers`). -/
def definitionSignal : ImportanceSignal := ⟨.structural_enumeration, "definition".toList, 0.3⟩

/-- Explicit-remember keyword signal, weight 0.9
(patterns.ts `EXPLICIT_REMEMBER`, e.g. "remember this"). -/
def explicitRememberSignal (source : Str) : ImportanceSignal :=
  ⟨.explicit_remember, source, 0.9⟩

/-- Emphasis-cue keyword signal, weight 0.8
(patterns.ts `EMPHASIS_CUE`, e.g. "never"). -/
def emphasisCueSignal (source : Str) : ImportanceSignal :=
  ⟨.emphasis_cue, source, 0.8⟩

/-- `/^\s*\d{1,5}:\s/` — a line that looks like line-numbered Read output. -/
def isLineNumbered (l : Str) : Bool :=
  let afterWs := l.dropWhile Char.isWhitespace
  let ds := afterWs.takeWhile Char.isDigit
  decide (1 ≤ ds.length) && decide (ds.length ≤ 5) &&
    (match afterWs.drop ds.length with
     | ':' :: c :: _ => c.isWhitespace
     | _ => false)

/-- Split on occurrences of three consecutive backticks, like
`text.split("\x60\x60\x60")`. -/
def splitFence : Str → List Str
  | [] => [[]]
  | [c] => [[c]]
  | [c, c₂] => [[c, c₂]]
  | c :: c₂ :: c₃ :: rest =>
    if c = '\x60' ∧ c₂ = '\x60' ∧ c₃ = '\x60' then
      [] :: splitFence rest
    else
      match splitFence (c₂ :: c₃ :: rest) with
      | [] => [[c]]
      | p :: ps => (c :: p) :: ps

/-- The inner texts matched by `/\x60\x60\x60[\s\S]*?\x60\x60\x60/g` on the
fence-split pieces: pieces at odd positions that are closed by a following
fence (the last piece is unclosed). -/
def fencedBlocks : List Str → List Str
  | _ :: b :: rest => if rest = [] then [] else b :: fencedBlocks rest
  | _ => []

/-- The text left after `replace(/\x60\x60\x60[\s\S]*?\x60\x60\x60/g, '')`,
reconstructed from the fence-split pieces (an unclosed trailing fence is
kept, as the regex leaves it in place). -/
def removeFences : List Str → Str
  | [] => []
  | [a] => a
  | a :: b :: rest =>
    if rest = [] then a ++ ("```".toList) ++ b else a ++ removeFences rest

/-- Total length of the matches of `/\x60[^\x60\n]+\x60/g`, computed on the
pieces of a split on single backticks: a piece between two backticks counts
(plus its 2 backticks) when it is non-empty and newline-free; otherwise the
scan restarts at the next backtick. -/
def inlineCodeLen : List Str → Nat
  | _ :: q :: rest =>
    if q ≠ [] ∧ '\n' ∉ q then (q.length + 2) + inlineCodeLen rest
    else inlineCodeLen (q :: rest)
  | _ => 0

/-- The text left after `replace(/\x60[^\x60\n]+\x60/g, '')` on the pieces of
a split on single backticks (unmatched backticks are kept). -/
def removeInline : List Str → Str
  | [] => []
  | [p] => p
  | p :: q :: rest =>
    if q ≠ [] ∧ '\n' ∉ q then p ++ removeInline rest
    else p ++ '\x60' :: removeInline (q :: rest)

/-- `codeChars = codeFenceContent.length + inlineCodeContent.length`. -/
def codeChars (trimmed : Str) : Nat :=
  ((fencedBlocks (splitFence trimmed)).map (fun b => b.length + 6)).sum +
    inlineCodeLen (trimmed.splitOn '\x60')

/-- `textWithoutCode` — fences removed, then inline code removed. -/
def textWithoutCode (trimmed : Str) : Str :=
  removeInline ((removeFences (splitFence trimmed)).splitOn '\x60')

/-- The structural/special characters counted by the gate:
`[{}[\]()=><;|&\\]`. -/
def SPECIAL_CHARS : Str :=
  ['\x7b', '\x7d', '[', ']', '(', ')', '=', '>', '<', ';', '|', '&', '\\']

/-- Number of special characters in a text. -/
def specialCount (s : Str) : Nat :=
  (s.filter (fun c => decide (c ∈ SPECIAL_CHARS))).length

/-- Number of `[a-zA-Z0-9]` characters in a text. -/
def alphanumCount (s : Str) : Nat :=
  (s.filter Char.isAlphanum).length

/-- `[\w.-]` (word characters, dot, dash). -/
def isWordDotDash (c : Char) : Bool :=
  c.isAlphanum || c = '_' || c = '.' || c = '-'

/-- `[\w/.-]`. -/
def isWordDotDashSlash (c : Char) : Bool :=
  isWordDotDash c || c = '/'

/-- `/^\s*(?:[A-Za-z]:\\|\/[\w.-]|\.\/)[\w/.-]+/` tested on the trimmed
line — a line that is essentially a bare file path. -/
def isPathLine (l : Str) : Bool :=
  match strTrim l with
  | '/' :: c₁ :: c₂ :: _ => isWordDotDash c₁ && isWordDotDashSlash c₂
  | '.' :: '/' :: c :: _ => isWordDotDashSlash c
  | a :: ':' :: '\\' :: c :: _ => a.isAlpha && isWordDotDashSlash c
  | _ => false

/-- `ContextSweep.isContentQualityAcceptable` (src/memory/context-sweep.ts):
reject when the trimmed text is under 20 characters; ends in `...[truncated]`
or `...`; has ≥ 3 lines of which more than half are line-numbered; is more
than 60% code-span characters; has special-character density above 30% of its
alphanumeric count outside code; or has ≥ 2 lines of which more than 70% are
bare file paths. -/
def isContentQualityAcceptable (text : Str) : Bool :=
  let trimmed := strTrim text
  if trimmed.length < 20 then false
  else if strEndsWith trimmed ("...[truncated]".toList) ||
      strEndsWith trimmed ("...".toList) then false
  else
    let lines := trimmed.splitOn '\n'
    if 3 ≤ lines.length ∧
        (0.5 : ℚ) < ((lines.filter isLineNumbered).length : ℚ) / (lines.length : ℚ) then
      false
    else if (0.6 : ℚ) < (codeChars trimmed : ℚ) / ((max 1 trimmed.length : ℕ) : ℚ) then
      false
    else if (0.3 : ℚ) < (specialCount (textWithoutCode trimmed) : ℚ) /
        ((max 1 (alphanumCount (textWithoutCode trimmed)) : ℕ) : ℚ) then
      false
    else if 2 ≤ lines.length ∧
        (0.7 : ℚ) < ((lines.filter isPathLine).length : ℚ) / (lines.length : ℚ) then
      false
    else true

/-- The per-chunk candidate decision of `extractFromConversationText`
(src/memory/context-sweep.ts lines 423–431, same shape in
`extractFromUserPrompt`): skip if no signals were detected; drop the signals
below the signal threshold and skip if none survive; then apply the
content-quality gate. -/
def chunkYieldsCandidate (threshold : ℚ) (signals : List ImportanceSignal)
    (chunk : Str) : Bool :=
  if signals.isEmpty then false
  else
    let significantSignals := signals.filter (fun s => decide (threshold ≤ s.weight))
    if significantSignals.isEmpty then false
    else isContentQualityAcceptable chunk

theorem chunkYieldsCandidate_of_quality_false (threshold : ℚ)
    (signals : List ImportanceSignal) (chunk : Str)
    (h : isContentQualityAcceptable chunk = false) :
    chunkYieldsCandidate threshold signals chunk = false := by
  simp only [chunkYieldsCandidate]
  split_ifs <;> simp [h]

theorem quality_false_of_truncated (text : Str)
    (h : strEndsWith (strTrim text) ("...[truncated]".toList) = true ∨
         strEndsWith (strTrim text) ("...".toList) = true) :
    isContentQualityAcceptable text = false := by
  simp only [isContentQualityAcceptable]
  split_ifs with g1 g2 g3 g4 g5 g6 <;> try rfl
  refine absurd ?_ g2
  rw [Bool.or_eq_true]
  rcases h with h | h
  · exact Or.inl h
  · exact Or.inr h

theorem chunkYieldsCandidate_of_strong_signal (threshold : ℚ)
    (signals : List ImportanceSignal) (chunk : Str) (s : ImportanceSignal)
    (hs : s ∈ signals) (hw : threshold ≤ s.weight)
    (hq : isContentQualityAcceptable chunk = true) :
    chunkYieldsCandidate threshold signals chunk = true := by
  have h0 : ¬ signals.isEmpty = true := by
    rw [List.isEmpty_iff]
    rintro rfl
    exact absurd hs (List.not_mem_nil s)
  have hfil : s ∈ signals.filter (fun x => decide (threshold ≤ x.weight)) :=
    List.mem_filter.mpr ⟨hs, by simpa using hw⟩
  have h1 : ¬ (signals.filter (fun x => decide (threshold ≤ x.weight))).isEmpty = true := by
    rw [List.isEmpty_iff]
    intro he
    rw [he] at hfil
    exact absurd hfil (List.not_mem_nil s)
  simp only [chunkYieldsCandidate]
  rw [if_neg h0, if_neg h1, hq]

theorem quality_true_of_clean (text : Str)
    (h1 : strTrim text = text)
    (h2 : ¬ text.length < 20)
    (h3 : strEndsWith text ("...[truncated]".toList) = false)
    (h4 : strEndsWith text ("...".toList) = false)
    (h5 : text.splitOn '\n' = [text])
    (h6 : codeChars text = 0)
    (h7 : specialCount (textWithoutCode text) = 0) :
    isContentQualityAcceptable text = true := by
  simp only [isContentQualityAcceptable, h1, h3, h4, h5, h6, h7]
  rw [if_neg h2]
  norm_num [zero_div]

/-- C6.  At the default signal threshold 0.5, a chunk whose detected signals
all come from the low-weight structural set — code block (0.25), bare file
path (0.25), bare URL (0.2), colon-style definition (0.3) — yields no memory
candidate, because every such signal is filtered out before the candidate is
built; while a chunk carrying an explicit-remember keyword signal (0.9) or an
emphasis-cue keyword signal such as "never" (0.8) yields a candidate whenever
the content-quality gate accepts the chunk. -/
theorem signalThreshold_spec :
    (∀ (chunk : Str) (signals : List ImportanceSignal),
      (∀ s ∈ signals,
        s ∈ [codeBlockSignal, filePathSignal, urlSignal, definitionSignal]) →
      chunkYieldsCandidate signalThreshold signals chunk = false) ∧
    (∀ (chunk : Str) (source : Str) (signals : List ImportanceSignal),
      explicitRememberSignal source ∈ signals →
      isContentQualityAcceptable chunk = true →
      chunkYieldsCandidate signalThreshold signals chunk = true) ∧
    (∀ (chunk : Str) (source : Str) (signals : List ImportanceSignal),
      emphasisCueSignal source ∈ signals →
      isContentQualityAcceptable chunk = true →
      chunkYieldsCandidate signalThreshold signals chunk = true) := by
  refine ⟨?_, ?_, ?_⟩
  · intro chunk signals hmem
    by_cases h0 : signals.isEmpty = true
    · simp [chunkYieldsCandidate, h0]
    · have hfil : signals.filter (fun s => decide (signalThreshold ≤ s.weight)) = [] := by
        rw [List.filter_eq_nil_iff]
        intro s hs
        have hm := hmem s hs
        simp only [List.mem_cons, List.not_mem_nil, or_false] at hm
        rcases hm with rfl | rfl | rfl | rfl <;>
          norm_num [codeBlockSignal, filePathSignal, urlSignal, definitionSignal,
            signalThreshold]
      simp [chunkYieldsCandidate, h0, hfil]
  · intro chunk source signals hs hq
    exact chunkYieldsCandidate_of_strong_signal _ _ _ _ hs
      (by norm_num [explicitRememberSignal, signalThreshold]) hq
  · intro chunk source signals hs hq
    exact chunkYieldsCandidate_of_strong_signal _ _ _ _ hs
      (by norm_num [emphasisCueSignal, signalThreshold]) hq

/-- The strict-mode test chunk from context-sweep.test.ts. -/
def strictModeChunk : Str :=
  "Human: Remember this: always use strict mode in TypeScript".toList

theorem strictModeChunk_quality :
    isContentQualityAcceptable strictModeChunk = true :=
  quality_true_of_clean _ (by decide) (by decide) (by decide) (by decide)
    (by decide) (by decide) (by decide)

/-- Concrete instance of `signalThreshold_spec`: a code-block-only chunk
yields nothing, an explicit-remember chunk yields a candidate. -/
theorem signalThreshold_spec_witness :
    chunkYieldsCandidate signalThreshold [codeBlockSignal] strictModeChunk = false ∧
    chunkYieldsCandidate signalThreshold
      [explicitRememberSignal ("remember this".toList)] strictModeChunk = true := by
  constructor
  · refine signalThreshold_spec.1 strictModeChunk [codeBlockSignal] ?_
    intro s hs
    simp only [List.mem_cons, List.not_mem_nil, or_false] at hs
    subst hs
    simp
  · exact signalThreshold_spec.2.1 strictModeChunk ("remember this".toList) _
      (List.mem_singleton_self _) strictModeChunk_quality

/-- C7, amended.  The content-quality gate rejects outright — regardless of
the detected signals and of the configured threshold — any chunk whose
trimmed text ends in `...[truncated]` or in the three-ASCII-dot `...`;
the single-character ellipsis `…` is *not* a recognized truncation marker. -/
theorem truncation_gate_spec :
    ∀ (chunk : Str) (signals : List ImportanceSignal) (threshold : ℚ),
      (strEndsWith (strTrim chunk) ("...[truncated]".toList) = true ∨
       strEndsWith (strTrim chunk) ("...".toList) = true) →
      chunkYieldsCandidate threshold signals chunk = false := by
  intro chunk signals threshold h
  exact chunkYieldsCandidate_of_quality_false _ _ _ (quality_false_of_truncated _ h)

/-- Concrete instance of `truncation_gate_spec`: the truncated
explicit-remember chunk from context-sweep.test.ts is rejected. -/
theorem truncation_gate_spec_witness :
    chunkYieldsCandidate signalThreshold
      [explicitRememberSignal ("remember this".toList)]
      ("Human: Remember this important information about the API...[truncated]".toList)
      = false :=
  truncation_gate_spec _ _ _ (Or.inl (by decide))

/-- A chunk that ends in the single-character ellipsis `…`. -/
def ellipsisChunk : Str :=
  "Remember this about the retry policy of the API client…".toList

theorem ellipsisChunk_quality :
    isContentQualityAcceptable ellipsisChunk = true :=
  quality_true_of_clean _ (by decide) (by decide) (by decide) (by decide)
    (by decide) (by decide) (by decide)

/-- C7, counterexample.  The claim lists the single-character ellipsis `…`
as a rejected truncation marker, but the gate's regex only matches the ASCII
forms: a chunk ending in `…` that carries an explicit-remember signal (0.9)
still yields a candidate. -/
theorem truncation_gate_counterexample :
    strEndsWith ellipsisChunk ("…".toList) = true ∧
    chunkYieldsCandidate signalThreshold
      [explicitRememberSignal ("remember this".toList)] ellipsisChunk = true := by
  refine ⟨by decide, ?_⟩
  exact chunkYieldsCandidate_of_strong_signal _ _ _ _ (List.mem_singleton_self _)
    (by norm_num [explicitRememberSignal, signalThreshold]) ellipsisChunk_quality

/-! ## C8: `filterConflicts` (conflict-filter module) -/

/-- `TOPIC_OVERLAP_THRESHOLD = 0.25`. -/
def TOPIC_OVERLAP_THRESHOLD : ℚ := 0.25

/-- `POLARITY_PAIRS` — the fixed antonym word-group pairs. -/
def POLARITY_PAIRS : List (List Str × List Str) :=
  [(["never", "avoid", "dislike", "don\x27t use", "do not use", "stop using",
      "remove"].map String.toList,
    ["always", "use", "prefer", "adopt", "start using", "add", "keep"].map String.toList),
   (["deprecated", "outdated", "old"].map String.toList,
    ["current", "latest", "new", "modern"].map String.toList),
   (["disable", "turn off", "skip"].map String.toList,
    ["enable", "turn on", "run"].map String.toList),
   (["reject", "block", "forbid"].map String.toList,
    ["accept", "allow", "permit"].map String.toList)]

/-- The word set of the conflict filter's `jaccardSimilarity`:
`text.toLowerCase().split(/\s+/).filter(w => w.length > 2)` as a set. -/
def conflictWords (text : Str) : List Str :=
  ((splitWs (lowerStr text)).filter (fun w => 2 < w.length)).dedup

/-- Conflict-filter `jaccardSimilarity` — zero when either word set is empty,
otherwise intersection over union. -/
def jaccardSimilarityConflict (a b : Str) : ℚ :=
  let wordsA := conflictWords a
  let wordsB := conflictWords b
  if wordsA.length = 0 ∨ wordsB.length = 0 then 0
  else
    let inter := wordsA.filter (fun x => decide (x ∈ wordsB))
    let uni := (wordsA ++ wordsB).dedup
    (inter.length : ℚ) / (uni.length : ℚ)

/-- `group.some(w => textLower.includes(w))`. -/
def groupHit (group : List Str) (textLower : Str) : Bool :=
  group.any (fun w => strContains textLower w)

/-- `hasOpposingPolarity` — one text hits a polarity group and the other hits
the opposing group, for some polarity pair. -/
def hasOpposingPolarity (textA textB : Str) : Bool :=
  POLARITY_PAIRS.any (fun p =>
    (groupHit p.1 (lowerStr textA) && groupHit p.2 (lowerStr textB)) ||
    (groupHit p.2 (lowerStr textA) && groupHit p.1 (lowerStr textB)))

/-- `areConflicting` — topic overlap below the threshold is an early `false`,
otherwise polarity opposition decides. -/
def areConflicting (a b : MemoryUnit) : Bool :=
  if jaccardSimilarityConflict a.summary b.summary < TOPIC_OVERLAP_THRESHOLD then false
  else hasOpposingPolarity a.summary b.summary

/-- `chooseLoser` — the lower-strength memory; on equal strength, the older
one (smaller `createdAt`). -/
def chooseLoser (a b : MemoryUnit) : MemoryUnit :=
  if a.strength ≠ b.strength then
    if a.strength < b.strength then a else b
  else
    if a.createdAt < b.createdAt then a else b

/-- One element of the `suppressed` output:
`{ memory, conflictsWith: winner.summary.slice(0, 80) }`. -/
structure SuppressedEntry where
  memory : MemoryUnit
  conflictsWith : Str
  deriving DecidableEq, Repr

/-- The inner `for j` loop of `filterConflicts`, comparing `a` against the
later memories: already-suppressed `b`s are skipped; on a conflict the loser
is recorded (suppressed list and id set) and the scan continues with the same
`a`. -/
def conflictInner (a : MemoryUnit) :
    List MemoryUnit → List SuppressedEntry → List Nat →
    List SuppressedEntry × List Nat
  | [], sup, supIds => (sup, supIds)
  | b :: rest, sup, supIds =>
    if b.id ∈ supIds then conflictInner a rest sup supIds
    else if areConflicting a b then
      let loser := chooseLoser a b
      let winner := if loser.id = a.id then b else a
      conflictInner a rest (sup ++ [⟨loser, winner.summary.take 80⟩])
        (supIds ++ [loser.id])
    else conflictInner a rest sup supIds

/-- The outer `for i` loop: memories already suppressed are skipped as
comparators. -/
def conflictScan :
    List MemoryUnit → List SuppressedEntry → List Nat →
    List SuppressedEntry × List Nat
  | [], sup, supIds => (sup, supIds)
  | a :: rest, sup, supIds =>
    if a.id ∈ supIds then conflictScan rest sup supIds
    else
      let r := conflictInner a rest sup supIds
      conflictScan rest r.1 r.2

/-- `filterConflicts` — the clean list (memories not suppressed) and the
suppressed entries with the stronger memory each was suppressed against. -/
def filterConflicts (memories : List MemoryUnit) :
    List MemoryUnit × List SuppressedEntry :=
  let r := conflictScan memories [] []
  (memories.filter (fun m => decide (m.id ∉ r.2)), r.1)

theorem filterConflicts_pair_loserB (a b : MemoryUnit) (hne : a.id ≠ b.id)
    (hconf : areConflicting a b = true) (hl : chooseLoser a b = b) :
    filterConflicts [a, b] = ([a], [⟨b, a.summary.take 80⟩]) := by
  have hba : ¬ (b.id = a.id) := fun h => hne h.symm
  simp [filterConflicts, conflictScan, conflictInner, hconf, hl, hba, hne]

theorem filterConflicts_pair_loserA (a b : MemoryUnit) (hne : a.id ≠ b.id)
    (hconf : areConflicting a b = true) (hl : chooseLoser a b = a) :
    filterConflicts [a, b] = ([b], [⟨a, b.summary.take 80⟩]) := by
  have hba : ¬ (b.id = a.id) := fun h => hne h.symm
  simp [filterConflicts, conflictScan, conflictInner, hconf, hl, hba, hne]

/-- Memory A of the claim: "Always use tabs", strength 0.8. -/
def tabsA : MemoryUnit :=
  ⟨21, .ltm, .preference, "Always use tabs".toList, [], none, 0, 0.8, 1, 0.5,
    ltmDecayRate, .active⟩

/-- Memory B of the claim: "Never use tabs", strength 0.5 (newer). -/
def tabsB : MemoryUnit :=
  ⟨22, .stm, .preference, "Never use tabs".toList, [], none, 1000, 0.5, 1, 0.5,
    stmDecayRate, .active⟩

theorem tabs_jaccard :
    jaccardSimilarityConflict tabsA.summary tabsB.summary = 2 / 4 := by
  have hlen : ¬ ((conflictWords tabsA.summary).length = 0 ∨
      (conflictWords tabsB.summary).length = 0) := by decide
  have hi : ((conflictWords tabsA.summary).filter
      (fun x => decide (x ∈ conflictWords tabsB.summary))).length = 2 := by decide
  have hu : ((conflictWords tabsA.summary ++ conflictWords tabsB.summary).dedup).length
      = 4 := by decide
  simp only [jaccardSimilarityConflict]
  rw [if_neg hlen, hi, hu]
  norm_num

theorem tabs_conflicting : areConflicting tabsA tabsB = true := by
  have hpol : hasOpposingPolarity tabsA.summary tabsB.summary = true := by decide
  simp only [areConflicting, tabs_jaccard]
  rw [if_neg (by norm_num [TOPIC_OVERLAP_THRESHOLD])]
  exact hpol

theorem tabs_loser : chooseLoser tabsA tabsB = tabsB := by
  have hne : tabsA.strength ≠ tabsB.strength := by
    norm_num [tabsA, tabsB]
  have hnlt : ¬ tabsA.strength < tabsB.strength := by
    norm_num [tabsA, tabsB]
  simp only [chooseLoser]
  rw [if_pos hne, if_neg hnlt]

/-- C8.  Two memories conflict iff their summaries' Jaccard word overlap
reaches 0.25 **and** they express opposing polarity via the fixed antonym
word-group pairs; on a conflict the lower-strength member is suppressed (on
equal strength, the one with the older `createdAt`), recording the stronger
memory's summary (first 80 characters) as the reason; in particular
A = "Always use tabs" (0.8) vs B = "Never use tabs" (0.5) suppresses B with
A reported as the reason. -/
theorem filterConflicts_spec :
    (∀ a b : MemoryUnit, areConflicting a b = true ↔
      (TOPIC_OVERLAP_THRESHOLD ≤ jaccardSimilarityConflict a.summary b.summary ∧
       hasOpposingPolarity a.summary b.summary = true)) ∧
    (∀ a b : MemoryUnit, a.strength < b.strength → chooseLoser a b = a) ∧
    (∀ a b : MemoryUnit, b.strength < a.strength → chooseLoser a b = b) ∧
    (∀ a b : MemoryUnit, a.strength = b.strength → a.createdAt < b.createdAt →
      chooseLoser a b = a) ∧
    (∀ a b : MemoryUnit, a.id ≠ b.id → areConflicting a b = true →
      (chooseLoser a b = b →
        filterConflicts [a, b] = ([a], [⟨b, a.summary.take 80⟩])) ∧
      (chooseLoser a b = a →
        filterConflicts [a, b] = ([b], [⟨a, b.summary.take 80⟩]))) ∧
    (∀ a b : MemoryUnit, areConflicting a b = false →
      filterConflicts [a, b] = ([a, b], [])) ∧
    filterConflicts [tabsA, tabsB] = ([tabsA], [⟨tabsB, "Always use tabs".toList⟩]) := by
  refine ⟨?_, ?_, ?_, ?_, ?_, ?_, ?_⟩
  · intro a b
    simp only [areConflicting]
    by_cases h : jaccardSimilarityConflict a.summary b.summary < TOPIC_OVERLAP_THRESHOLD
    · rw [if_pos h]
      exact iff_of_false (by simp) (fun hh => absurd hh.1 (not_le.mpr h))
    · rw [if_neg h]
      simp [not_lt.mp h]
  · intro a b h
    simp only [chooseLoser]
    rw [if_pos (ne_of_lt h), if_pos h]
  · intro a b h
    simp only [chooseLoser]
    rw [if_pos (ne_of_gt h), if_neg (not_lt.mpr (le_of_lt h))]
  · intro a b heq hlt
    simp only [chooseLoser]
    rw [if_neg (not_not_intro heq), if_pos hlt]
  · intro a b hne hconf
    exact ⟨filterConflicts_pair_loserB a b hne hconf,
      filterConflicts_pair_loserA a b hne hconf⟩
  · intro a b hnc
    simp [filterConflicts, conflictScan, conflictInner, hnc]
  · have htake : tabsA.summary.take 80 = "Always use tabs".toList := by decide
    rw [← htake]
    exact filterConflicts_pair_loserB tabsA tabsB (by decide) tabs_conflicting tabs_loser

/-- Concrete instance of `filterConflicts_spec`: the lower-strength member of
the tabs pair is chosen as the loser. -/
theorem filterConflicts_spec_witness : chooseLoser tabsB tabsA = tabsB :=
  filterConflicts_spec.2.1 tabsB tabsA (by norm_num [tabsA, tabsB])

/-! ## C10: retrieval queries and feedback
(src/storage/database.ts lines 497–606 and 714–744)

Each query is `SELECT ... WHERE status = 'active' AND <scope> [AND store = ?]
ORDER BY strength DESC LIMIT ?`, modelled as filter / sort / take.  The
`feedback` audit row that `addFeedback` also inserts is outside the
memory_units table and is not modelled. -/

/-- `ORDER BY strength DESC` comparator. -/
def byStrengthDesc (a b : MemoryUnit) : Bool :=
  decide (b.strength ≤ a.strength)

/-- The optional `AND store = ?` clause. -/
def storeMatches (store : Option MemoryStore) (m : MemoryUnit) : Bool :=
  match store with
  | none => true
  | some st => decide (m.store = st)

/-- `MemoryDatabase.getTopMemories`. -/
def getTopMemories (db : List MemoryUnit) (limit : Nat)
    (store : Option MemoryStore) : List MemoryUnit :=
  ((db.filter (fun m => decide (m.status = .active) && storeMatches store m)).mergeSort
    byStrengthDesc).take limit

/-- `MemoryDatabase.getMemoriesByScope` — active, and either user-level or
`project_scope IS NOT NULL AND project_scope = currentProject ?? ''`. -/
def getMemoriesByScope (db : List MemoryUnit) (currentProject : Option Str)
    (limit : Nat) (store : Option MemoryStore) : List MemoryUnit :=
  ((db.filter (fun m =>
      decide (m.status = .active) &&
      (decide (m.classification ∈ USER_LEVEL_CLASSIFICATIONS) ||
        (match m.projectScope with
         | some p => decide (p = currentProject.getD [])
         | none => false)) &&
      storeMatches store m)).mergeSort byStrengthDesc).take limit

/-- `MemoryDatabase.getUserLevelMemories`. -/
def getUserLevelMemories (db : List MemoryUnit) (limit : Nat)
    (store : Option MemoryStore) : List MemoryUnit :=
  ((db.filter (fun m =>
      decide (m.status = .active) &&
      decide (m.classification ∈ USER_LEVEL_CLASSIFICATIONS) &&
      storeMatches store m)).mergeSort byStrengthDesc).take limit

/-- `MemoryDatabase.getProjectMemories`. -/
def getProjectMemories (db : List MemoryUnit) (project : Str) (limit : Nat)
    (store : Option MemoryStore) : List MemoryUnit :=
  ((db.filter (fun m =>
      decide (m.status = .active) &&
      decide (m.projectScope = some project) &&
      storeMatches store m)).mergeSort byStrengthDesc).take limit

/-- `MemoryDatabase.updateMemoryStatus`. -/
def updateMemoryStatus (db : List MemoryUnit) (memoryId : Nat)
    (status : MemoryStatus) : List MemoryUnit :=
  db.map (fun m => if m.id = memoryId then { m with status := status } else m)

/-- `Feedback['type']`. -/
inductive FeedbackType where
  | remember
  | forget
  | pin
  | correct
  deriving DecidableEq, Repr

/-- The memory-table effect of `MemoryDatabase.addFeedback`: `pin` sets the
status to `'pinned'`, `forget` to `'forgotten'`, `remember` boosts importance
(capped at 1) and forces the ltm store with the LTM decay rate; without a
memory id (or for `correct`) the table is untouched. -/
def addFeedback (db : List MemoryUnit) (type : FeedbackType)
    (memoryId : Option Nat) : List MemoryUnit :=
  match memoryId with
  | none => db
  | some mid =>
    match type with
    | .pin => updateMemoryStatus db mid .pinned
    | .forget => updateMemoryStatus db mid .forgotten
    | .remember =>
      db.map (fun m =>
        if m.id = mid then
          { m with importance := min 1 (m.importance + 0.3),
                   store := .ltm, decayRate := ltmDecayRate }
        else m)
    | .correct => db

theorem mem_of_sorted_take {m : MemoryUnit} {l : List MemoryUnit}
    {le : MemoryUnit → MemoryUnit → Bool} {n : Nat}
    (h : m ∈ (l.mergeSort le).take n) : m ∈ l :=
  ((l.mergeSort_perm le).mem_iff).mp (List.mem_of_mem_take h)

/-- C10.  Every memory returned by `getTopMemories`, `getMemoriesByScope`,
`getUserLevelMemories` or `getProjectMemories` has status `'active'`; pin
feedback sets the target memory's status to `'pinned'`; consequently a pinned
memory — although pinning is meant to protect it — is never returned by any
of these retrieval paths. -/
theorem retrieval_active_only_spec :
    (∀ db limit store (m : MemoryUnit),
      m ∈ getTopMemories db limit store → m.status = .active) ∧
    (∀ db proj limit store (m : MemoryUnit),
      m ∈ getMemoriesByScope db proj limit store → m.status = .active) ∧
    (∀ db limit store (m : MemoryUnit),
      m ∈ getUserLevelMemories db limit store → m.status = .active) ∧
    (∀ db proj limit store (m : MemoryUnit),
      m ∈ getProjectMemories db proj limit store → m.status = .active) ∧
    (∀ db mid (m : MemoryUnit),
      m ∈ addFeedback db .pin (some mid) → m.id = mid → m.status = .pinned) ∧
    (∀ db limit store (m : MemoryUnit), m.status = .pinned →
      m ∉ getTopMemories db limit store ∧
      (∀ proj, m ∉ getMemoriesByScope db proj limit store) ∧
      m ∉ getUserLevelMemories db limit store ∧
      (∀ p, m ∉ getProjectMemories db p limit store)) := by
  have hTop : ∀ db limit store (m : MemoryUnit),
      m ∈ getTopMemories db limit store → m.status = .active := by
    intro db limit store m h
    have h1 := List.mem_filter.mp (mem_of_sorted_take h)
    have h2 := h1.2
    simp only [Bool.and_eq_true, decide_eq_true_eq] at h2
    exact h2.1
  have hScope : ∀ db proj limit store (m : MemoryUnit),
      m ∈ getMemoriesByScope db proj limit store → m.status = .active := by
    intro db proj limit store m h
    have h1 := List.mem_filter.mp (mem_of_sorted_take h)
    have h2 := h1.2
    simp only [Bool.and_eq_true, decide_eq_true_eq] at h2
    exact h2.1.1
  have hUser : ∀ db limit store (m : MemoryUnit),
      m ∈ getUserLevelMemories db limit store → m.status = .active := by
    intro db limit store m h
    have h1 := List.mem_filter.mp (mem_of_sorted_take h)
    have h2 := h1.2
    simp only [Bool.and_eq_true, decide_eq_true_eq] at h2
    exact h2.1.1
  have hProj : ∀ db proj limit store (m : MemoryUnit),
      m ∈ getProjectMemories db proj limit store → m.status = .active := by
    intro db proj limit store m h
    have h1 := List.mem_filter.mp (mem_of_sorted_take h)
    have h2 := h1.2
    simp only [Bool.and_eq_true, decide_eq_true_eq] at h2
    exact h2.1.1
  refine ⟨hTop, hScope, hUser, hProj, ?_, ?_⟩
  · intro db mid m h hmid
    simp only [addFeedback, updateMemoryStatus] at h
    rcases List.mem_map.mp h with ⟨orig, _, heq⟩
    by_cases horig : orig.id = mid
    · rw [if_pos horig] at heq
      rw [← heq]
    · rw [if_neg horig] at heq
      rw [← heq] at hmid
      exact absurd hmid horig
  · intro db limit store m hpin
    refine ⟨fun h => ?_, fun proj h => ?_, fun h => ?_, fun p h => ?_⟩
    · have := hTop db limit store m h; rw [hpin] at this; cases this
    · have := hScope db proj limit store m h; rw [hpin] at this; cases this
    · have := hUser db limit store m h; rw [hpin] at this; cases this
    · have := hProj db p limit store m h; rw [hpin] at this; cases this

/-- An active memory used to instantiate the C10 theorem. -/
def pinWitnessMem : MemoryUnit :=
  ⟨41, .stm, .preference, [], [], none, 0, 1, 1, 1, stmDecayRate, .active⟩

/-- Concrete instance of `retrieval_active_only_spec`: after pin feedback the
memory is pinned and no longer returned by `getTopMemories`. -/
theorem retrieval_active_only_spec_witness :
    ({ pinWitnessMem with status := .pinned } : MemoryUnit).status = .pinned ∧
    ({ pinWitnessMem with status := .pinned } : MemoryUnit) ∉
      getTopMemories [{ pinWitnessMem with status := .pinned }] 5 none := by
  have hmem : ({ pinWitnessMem with status := .pinned } : MemoryUnit) ∈
      addFeedback [pinWitnessMem] .pin (some 41) := by
    simp [addFeedback, updateMemoryStatus, pinWitnessMem]
  refine ⟨retrieval_active_only_spec.2.2.2.2.1 [pinWitnessMem] 41 _ hmem rfl, ?_⟩
  exact (retrieval_active_only_spec.2.2.2.2.2 _ 5 none _ rfl).1

/-! ## C9: `calculateRelevance` and query ranking
(src/retrieval/index.ts lines 177–221, 152–159, 307–310)

Only the no-embedding branch is modelled: the claim is about retrieval
without embeddings (`textSimilarity = jaccard*0.5 + keywordScore*0.5`). -/

/-- The word set of the retrieval layer's `jaccardSimilarity`
(inputs are lower-cased by the caller):
`new Set(a.split(/\s+/).filter(w => w.length > 2))`. -/
def retrievalWords (s : Str) : List Str :=
  ((splitWs s).filter (fun w => 2 < w.length)).dedup

/-- Retrieval-layer `jaccardSimilarity` — zero when either word set is empty,
otherwise intersection over union. -/
def jaccardSimilarityRetrieval (a b : Str) : ℚ :=
  let wordsA := retrievalWords a
  let wordsB := retrievalWords b
  if wordsA.length = 0 ∨ wordsB.length = 0 then 0
  else
    let inter := wordsA.filter (fun x => decide (x ∈ wordsB))
    let uni := (wordsA ++ wordsB).dedup
    (inter.length : ℚ) / (uni.length : ℚ)

/-- `queryLower.split(/\s+/).filter(w => w.length > 2)` (not deduplicated). -/
def queryKeywordsOf (queryLower : Str) : List Str :=
  (splitWs queryLower).filter (fun w => 2 < w.length)

/-- `MemoryRetrieval.calculateRelevance`, no-embedding branch:
`min(1, textSimilarity * 2.0 * (0.5 + strength * 0.5) + tagScore +
recencyBonus)` with `textSimilarity = jaccard*0.5 + keywordScore*0.5`,
`tagScore = tagMatches * 0.15`, `recencyBonus = max(0, 0.05 − ageHours/2000)`
and `ageHours = (now − createdAt) / (1000·60·60)`. -/
def calculateRelevance (now : ℚ) (memory : MemoryUnit) (query : Str) : ℚ :=
  let queryLower := lowerStr query
  let summaryLower := lowerStr memory.summary
  let jaccard := jaccardSimilarityRetrieval summaryLower queryLower
  let queryKeywords := queryKeywordsOf queryLower
  let keywordHits := (queryKeywords.filter
      (fun kw => strContains summaryLower kw)).length
  let keywordScore : ℚ :=
    if 0 < queryKeywords.length then (keywordHits : ℚ) / (queryKeywords.length : ℚ)
    else 0
  let tagMatches := (memory.tags.filter
      (fun tag => queryKeywords.any (fun term => strContains (lowerStr tag) term))).length
  let tagScore : ℚ := (tagMatches : ℚ) * 0.15
  let ageHours : ℚ := (now - memory.createdAt) / (1000 * 60 * 60)
  let recencyBonus : ℚ := max 0 (0.05 - ageHours / 2000)
  let textSimilarity := jaccard * 0.5 + keywordScore * 0.5
  min 1 (textSimilarity * 2.0 * (0.5 + memory.strength * 0.5) + tagScore + recencyBonus)

/-- Modelled from the claim's formula: `(jaccard×0.5 + keywordHitRatio×0.5) ×
2.0 × (0.5 + strength×0.5) + 0.15 × number_of_matching_tags +
max(0, 0.05 − ageHours/2000)` — written exactly as the claim states it, with
no cap. -/
def claimedRelevanceUncapped (now : ℚ) (memory : MemoryUnit) (query : Str) : ℚ :=
  (jaccardSimilarityRetrieval (lowerStr memory.summary) (lowerStr query) * 0.5 +
    (if 0 < (queryKeywordsOf (lowerStr query)).length then
      (((queryKeywordsOf (lowerStr query)).filter
          (fun kw => strContains (lowerStr memory.summary) kw)).length : ℚ) /
        ((queryKeywordsOf (lowerStr query)).length : ℚ)
     else 0) * 0.5) * 2.0 * (0.5 + memory.strength * 0.5) +
  0.15 * ((memory.tags.filter (fun tag => (queryKeywordsOf (lowerStr query)).any
      (fun term => strContains (lowerStr tag) term))).length : ℚ) +
  max 0 (0.05 - ((now - memory.createdAt) / (1000 * 60 * 60)) / 2000)

/-- The descending-score comparator of `rankByTextSimilarity`
(`scored.sort((a, b) => b.score - a.score)`). -/
def relevanceLE (now : ℚ) (query : Str) (a b : MemoryUnit) : Bool :=
  decide (calculateRelevance now b query ≤ calculateRelevance now a query)

/-- `MemoryRetrieval.rankByTextSimilarity` (no query embedding). -/
def rankByTextSimilarity (now : ℚ) (memories : List MemoryUnit) (query : Str) :
    List MemoryUnit :=
  memories.mergeSort (relevanceLE now query)

/-- `MemoryRetrieval.retrieveByScope` — no query: plain scope fetch, ordered
by strength descending. -/
def retrieveByScope (db : List MemoryUnit) (currentProject : Option Str)
    (limit : Nat) : List MemoryUnit :=
  getMemoriesByScope db currentProject limit none

/-- The memory of the C9 counterexample: summary identical to the query,
strength 1, no tags, created 100 hours before `now`. -/
def alphaMem : MemoryUnit :=
  ⟨31, .ltm, .semantic, "alpha beta gamma".toList, [], none, 0, 1, 1, 0.5,
    ltmDecayRate, .active⟩

/-- C9, counterexample.  The claim's formula omits the final `Math.min(1, …)`
cap: for a memory whose summary equals the query and whose strength is 1, the
claimed formula gives 2 while the code returns 1. -/
theorem calculateRelevance_claim_counterexample :
    claimedRelevanceUncapped 360000000 alphaMem ("alpha beta gamma".toList) = 2 ∧
    calculateRelevance 360000000 alphaMem ("alpha beta gamma".toList) = 1 := by
  have hjac : jaccardSimilarityRetrieval (lowerStr alphaMem.summary)
      (lowerStr ("alpha beta gamma".toList)) = 1 := by
    have hlen : ¬ ((retrievalWords (lowerStr alphaMem.summary)).length = 0 ∨
        (retrievalWords (lowerStr ("alpha beta gamma".toList))).length = 0) := by decide
    have hi : ((retrievalWords (lowerStr alphaMem.summary)).filter
        (fun x => decide (x ∈ retrievalWords (lowerStr ("alpha beta gamma".toList))))).length
        = 3 := by decide
    have hu : ((retrievalWords (lowerStr alphaMem.summary) ++
        retrievalWords (lowerStr ("alpha beta gamma".toList))).dedup).length = 3 := by
      decide
    simp only [jaccardSimilarityRetrieval]
    rw [if_neg hlen, hi, hu]
    norm_num
  have hkwlen : (queryKeywordsOf (lowerStr ("alpha beta gamma".toList))).length = 3 := by
    decide
  have hkwhits : ((queryKeywordsOf (lowerStr ("alpha beta gamma".toList))).filter
      (fun kw => strContains (lowerStr alphaMem.summary) kw)).length = 3 := by decide
  constructor
  · simp only [claimedRelevanceUncapped, hjac, hkwlen, hkwhits]
    norm_num [alphaMem]
  · simp only [calculateRelevance, hjac, hkwlen, hkwhits]
    norm_num [alphaMem]

/-- C9, amended.  Given a query and no embeddings, each memory's relevance is
`min(1, (jaccard×0.5 + keywordHitRatio×0.5) × 2.0 × (0.5 + strength×0.5) +
0.15 × matching_tags + max(0, 0.05 − ageHours/2000))` — the code caps the
score at 1; query retrieval returns a permutation of the pool in descending
order of this score, and retrieval without a query returns the scope pool in
descending order of strength. -/
theorem calculateRelevance_spec :
    (∀ (now : ℚ) (m : MemoryUnit) (q : Str),
      calculateRelevance now m q = min 1 (claimedRelevanceUncapped now m q)) ∧
    (∀ (now : ℚ) (q : Str) (mems : List MemoryUnit),
      (rankByTextSimilarity now mems q).Perm mems ∧
      List.Pairwise
        (fun a b => calculateRelevance now b q ≤ calculateRelevance now a q)
        (rankByTextSimilarity now mems q)) ∧
    (∀ (db : List MemoryUnit) (proj : Option Str) (limit : Nat),
      List.Pairwise (fun a b : MemoryUnit => b.strength ≤ a.strength)
        (retrieveByScope db proj limit)) := by
  refine ⟨?_, ?_, ?_⟩
  · intro now m q
    simp only [calculateRelevance, claimedRelevanceUncapped]
    congr 1
    ring
  · intro now q mems
    constructor
    · exact mems.mergeSort_perm _
    · have hs := @List.sorted_mergeSort MemoryUnit (relevanceLE now q)
        (fun a b c hab hbc => by
          simp only [relevanceLE, decide_eq_true_eq] at *
          exact le_trans hbc hab)
        (fun a b => by
          simp only [relevanceLE, Bool.or_eq_true, decide_eq_true_eq]
          exact le_total (calculateRelevance now b q) (calculateRelevance now a q))
        mems
      exact hs.imp (fun h => by simpa [relevanceLE] using h)
  · intro db proj limit
    have hs := @List.sorted_mergeSort MemoryUnit byStrengthDesc
      (fun a b c hab hbc => by
        simp only [byStrengthDesc, decide_eq_true_eq] at *
        exact le_trans hbc hab)
      (fun a b => by
        simp only [byStrengthDesc, Bool.or_eq_true, decide_eq_true_eq]
        exact le_total b.strength a.strength)
      (db.filter (fun m =>
        decide (m.status = .active) &&
        (decide (m.classification ∈ USER_LEVEL_CLASSIFICATIONS) ||
          (match m.projectScope with
           | some p => decide (p = proj.getD [])
           | none => false)) &&
        storeMatches none m))
    have hsub := List.take_sublist limit
      ((db.filter (fun m =>
        decide (m.status = .active) &&
        (decide (m.classification ∈ USER_LEVEL_CLASSIFICATIONS) ||
          (match m.projectScope with
           | some p => decide (p = proj.getD [])
           | none => false)) &&
        storeMatches none m)).mergeSort byStrengthDesc)
    exact (hs.imp (fun h => by simpa [byStrengthDesc] using h)).sublist hsub
